import Mathlib

/-!
Verification of the dependency-graph visualizer (src/index.js).

The program resolves a package dependency tree from a registry HTTP API
(`getDependencies`), serializes the tree to a DOT graph description
(`generateDotGraph`), and runs a two-stage external rendering pipeline
(`generateImageFromDot`).  Each function is embedded shallowly:

* network effects are modelled by an explicit registry response function
  `reg : String → RegResult` (URL ↦ outcome) plus a trace of requested URLs,
  returned alongside the node list;
* the JS semantics of `response.data.dependencies || {}` followed by
  `Object.entries` is modelled by a small `JsValue` type with JS truthiness
  and a key-listing function;
* the render pipeline is modelled as an event trace (file writes, shell
  command invocations, log lines), with the `async` function's throw/catch
  behaviour made explicit via `Except` (an `Except.error` that escaped the
  function would be a rejected promise).
-/

/-- A JavaScript value, restricted to the shapes the program can meet in the
`dependencies` field of a registry response body. -/
inductive JsValue where
  | vUndefined : JsValue
  | vNull : JsValue
  | vBool : Bool → JsValue
  | vNum : Int → JsValue
  | vStr : String → JsValue
  | vObj : List String → JsValue
deriving DecidableEq, Repr

/-- JS truthiness: `undefined`, `null`, `false`, `0` and the empty string are
falsy; every object (even an empty one) is truthy. -/
def truthy : JsValue → Bool
  | JsValue.vUndefined => false
  | JsValue.vNull => false
  | JsValue.vBool b => b
  | JsValue.vNum n => n != 0
  | JsValue.vStr s => s != ""
  | JsValue.vObj _ => true

/-- JS `a || b`: returns `a` when truthy, otherwise `b`. -/
def jsOr (a b : JsValue) : JsValue :=
  if truthy a then a else b

/-- Keys listed by `Object.entries` (the source destructures each entry to its
key with `for (const [name] of Object.entries(dependencies))`).  An object
yields its own keys in insertion order; a string yields its index strings;
numbers and booleans yield nothing. -/
def entriesKeys : JsValue → List String
  | JsValue.vObj es => es
  | JsValue.vStr s => (List.range s.length).map toString
  | _ => []

/-- Outcome of `axios.get` on one URL: `fail` models any network, HTTP-status
or parse failure (a thrown error), `ok v` models a response whose body has a
`dependencies` field equal to `v` (`vUndefined` when the field is absent). -/
inductive RegResult where
  | fail : RegResult
  | ok : JsValue → RegResult
deriving DecidableEq, Repr

/-- A resolved package occurrence, as built by
`result.push({ name, dependencies: subDeps })` in the source. -/
inductive DependencyNode where
  | mk : String → List DependencyNode → DependencyNode
deriving Repr

def DependencyNode.name : DependencyNode → String
  | DependencyNode.mk n _ => n

def DependencyNode.dependencies : DependencyNode → List DependencyNode
  | DependencyNode.mk _ ds => ds

/-- The URL requested for one package: `{repositoryUrl}/{packageName}/latest`
(src/index.js line 27). -/
def requestUrl (repositoryUrl packageName : String) : String :=
  repositoryUrl ++ "/" ++ packageName ++ "/latest"

/-- The dependency names the source reads from a registry outcome: on failure
none (the `catch` returns `[]` before the loop is reached); on success the
keys of `response.data.dependencies || {}` (src/index.js lines 28, 31). -/
def declaredNames : RegResult → List String
  | RegResult.fail => []
  | RegResult.ok v => entriesKeys (jsOr v (JsValue.vObj []))

/-- Shallow embedding of `getDependencies(packageName, depth, maxDepth,
repositoryUrl)` (src/index.js lines 23-40), parameterized by the registry
response function `reg`.  Returns the node list the JS function returns,
paired with the trace of URLs requested, in request order.  A failed request
is still in the trace (the `axios.get` call was issued before it threw); the
`catch` then yields `[]` for that call.  Children are resolved one at a time
in declared order, each child's whole subtree (and its requests) before the
next sibling, which the trace concatenation order reflects. -/
def getDependencies (reg : String → RegResult) (packageName : String)
    (depth maxDepth : Nat) (repositoryUrl : String) :
    List DependencyNode × List String :=
  if depth > maxDepth then ([], [])
  else
    let u := requestUrl repositoryUrl packageName
    match reg u with
    | RegResult.fail => ([], [u])
    | RegResult.ok v =>
        let names := entriesKeys (jsOr v (JsValue.vObj []))
        let children := names.map
          (fun n => (n, getDependencies reg n (depth + 1) maxDepth repositoryUrl))
        (children.map (fun p => DependencyNode.mk p.1 p.2.1),
         u :: (children.map (fun p => p.2.2)).flatten)
termination_by maxDepth + 1 - depth
decreasing_by simp_wf; omega

mutual
/-- Height of a node: 1 for a leaf, 1 + the tallest child subtree. -/
def nodeHeight : DependencyNode → Nat
  | DependencyNode.mk _ ds => 1 + forestHeight ds
def forestHeight : List DependencyNode → Nat
  | [] => 0
  | t :: ts => max (nodeHeight t) (forestHeight ts)
end

/-- All immediate children of the nodes of a forest, in order. -/
def childForest (l : List DependencyNode) : List DependencyNode :=
  (l.map DependencyNode.dependencies).flatten

/-- The nodes lying at depth `k` of a forest whose own elements are at
depth 1 (the depth convention of the spec: the root call is depth 1). -/
def nodesAtDepth : Nat → List DependencyNode → List DependencyNode
  | 0, _ => []
  | 1, l => l
  | k + 2, l => nodesAtDepth (k + 1) (childForest l)

mutual
/-- Embedding of the inner `addDependencies(dep, parent)` of `generateDotGraph`
(src/index.js lines 45-48).  The source mutates the outer variable `graph` by
appending; here that variable is threaded explicitly as the `graph`
parameter: first the node's own edge line is appended, then its children are
visited in stored order. -/
def addDependenciesAcc (graph : String) : DependencyNode → String → String
  | DependencyNode.mk n ds, parent =>
      forEachDep (graph ++ ("  \"" ++ parent ++ "\" -> \"" ++ n ++ "\";\n")) ds n
def forEachDep (graph : String) : List DependencyNode → String → String
  | [], _ => graph
  | d :: ds, parent => forEachDep (addDependenciesAcc graph d parent) ds parent
end

/-- Embedding of `generateDotGraph(dependencies, packageName)` (src/index.js
lines 42-53): header line, the edges emitted by visiting each root-level node
with the package name as parent, then the closing line. -/
def generateDotGraph (dependencies : List DependencyNode) (packageName : String) : String :=
  forEachDep ("digraph " ++ packageName ++ " \x7b\n") dependencies packageName ++ "\x7d\n"

mutual
/-- Modelled from the spec: the (parent, child) pairs of a pre-order
depth-first walk — each node contributes its own edge, then all its
descendants' edges, before the next sibling's edge. -/
def preorderEdgesN : DependencyNode → String → List (String × String)
  | DependencyNode.mk n ds, parent => (parent, n) :: preorderEdgesF ds n
def preorderEdgesF : List DependencyNode → String → List (String × String)
  | [], _ => []
  | d :: ds, parent => preorderEdgesN d parent ++ preorderEdgesF ds parent
end

/-- Modelled from the spec: one edge line of the literal shape
`  "<parent>" -> "<child>";` per pair, names verbatim, concatenated in
order. -/
def edgesText : List (String × String) → String
  | [] => ""
  | e :: es => "  \"" ++ e.1 ++ "\" -> \"" ++ e.2 ++ "\";\n" ++ edgesText es

/-- Result a shell command delivers to its `exec` callback: `error` is
`some message` exactly when the process failed (nonzero exit), and `stdout`
and `stderr` are its captured output streams. -/
structure ExecResult where
  error : Option String
  stdout : String
  stderr : String
deriving DecidableEq, Repr

/-- The ambient system: what `fs.writeFileSync` does for a given path and
content (`Except.error` models a thrown filesystem error), and what result
each shell command run through `exec` reports to its callback. -/
structure SysEnv where
  writeResult : String → String → Except String Unit
  exec : String → ExecResult

/-- One observable action of the render pipeline, in order of occurrence:
a successful file write, a `console.log` line, the start of an external
command via `exec`, or a `console.error` line. -/
inductive Event where
  | fileWritten : String → String → Event
  | logged : String → Event
  | execInvoked : String → Event
  | errorLogged : String → Event
deriving DecidableEq, Repr

/-- The SVG conversion command built on src/index.js line 64:
`{visualizerPath} -Tsvg {base}.dot -o {base}.svg`. -/
def svgCommandOf (visualizerPath outputFilePath : String) : String :=
  visualizerPath ++ " -Tsvg " ++ (outputFilePath ++ ".dot") ++ " -o " ++ (outputFilePath ++ ".svg")

/-- The PNG conversion command built on src/index.js line 80:
`magick {base}.svg {base}.png`. -/
def pngCommandOf (outputFilePath : String) : String :=
  "magick " ++ (outputFilePath ++ ".svg") ++ " " ++ (outputFilePath ++ ".png")

/-- The `exec` callback for the PNG command (src/index.js lines 82-92). -/
def pngCallback (outputFilePath : String) (r : ExecResult) : List Event :=
  match r.error with
  | some m => [Event.errorLogged ("Ошибка при выполнении команды для PNG: " ++ m)]
  | none =>
      if r.stderr ≠ "" then [Event.errorLogged ("Ошибка: " ++ r.stderr)]
      else [Event.logged ("PNG-изображение графа сохранено в: " ++ (outputFilePath ++ ".png"))]

/-- The `exec` callback for the SVG command (src/index.js lines 67-93): on a
process error or any stderr output it reports and returns, never reaching the
PNG stage; otherwise it logs success and invokes the PNG command. -/
def svgCallback (env : SysEnv) (outputFilePath : String) (r : ExecResult) : List Event :=
  match r.error with
  | some m => [Event.errorLogged ("Ошибка при выполнении команды для SVG: " ++ m)]
  | none =>
      if r.stderr ≠ "" then [Event.errorLogged ("Ошибка: " ++ r.stderr)]
      else
        Event.logged ("SVG-изображение графа сохранено в: " ++ (outputFilePath ++ ".svg")) ::
        Event.execInvoked (pngCommandOf outputFilePath) ::
        pngCallback outputFilePath (env.exec (pngCommandOf outputFilePath))

/-- The `try` block of `generateImageFromDot` (src/index.js lines 56-93):
write the DOT file (a failure is a thrown error, `Except.error`), log, then
invoke the SVG command and let its callback continue the pipeline. -/
def generateImageFromDotBody (env : SysEnv) (dotString outputFilePath visualizerPath : String) :
    Except String (List Event) :=
  match env.writeResult (outputFilePath ++ ".dot") dotString with
  | Except.error e => Except.error e
  | Except.ok _ =>
      Except.ok
        (Event.fileWritten (outputFilePath ++ ".dot") dotString ::
         Event.logged ("DOT-граф сохранен в: " ++ (outputFilePath ++ ".dot")) ::
         Event.execInvoked (svgCommandOf visualizerPath outputFilePath) ::
         svgCallback env outputFilePath (env.exec (svgCommandOf visualizerPath outputFilePath)))

/-- Embedding of `generateImageFromDot(dotString, outputFilePath,
visualizerPath)` (src/index.js lines 55-97; the source defaults
`visualizerPath` to `"dot"`).  The surrounding `try`/`catch` turns any thrown
error into a reported message, so the async function's promise fulfills with
the trace of observable events; a rejected promise would be `Except.error`,
which the catch makes unreachable. -/
def generateImageFromDot (env : SysEnv) (dotString outputFilePath visualizerPath : String) :
    Except String (List Event) :=
  match generateImageFromDotBody env dotString outputFilePath visualizerPath with
  | Except.ok evs => Except.ok evs
  | Except.error e => Except.ok [Event.errorLogged ("Ошибка при генерации изображения: " ++ e)]

/-- The shell commands invoked during a trace, in order. -/
def execCmds (evs : List Event) : List String :=
  evs.filterMap (fun e => match e with | Event.execInvoked c => some c | _ => none)

/-- Registry of the spec's example scenario: `example-package` declares
`dep1` and `dep2` (in that order); `dep1` has an empty `dependencies` object
and `dep2` has no `dependencies` field; every other URL fails. -/
def regC7 : String → RegResult := fun u =>
  if u = "https://api.example.com/example-package/latest" then
    RegResult.ok (JsValue.vObj ["dep1", "dep2"])
  else if u = "https://api.example.com/dep1/latest" then RegResult.ok (JsValue.vObj [])
  else if u = "https://api.example.com/dep2/latest" then RegResult.ok JsValue.vUndefined
  else RegResult.fail

/-- A registry on which every request fails (total outage). -/
def regAllFail : String → RegResult := fun _ => RegResult.fail

/-- A registry whose every response carries `dependencies: null` (a falsy,
non-absent field). -/
def regNullDeps : String → RegResult := fun _ => RegResult.ok JsValue.vNull

/-- A system where file writes succeed and every external command fails with
message `boom`. -/
def envExecFail : SysEnv :=
  ⟨fun _ _ => Except.ok (), fun _ => ⟨some "boom", "", ""⟩⟩

/-- A system where every file write throws `EACCES` and external commands
would succeed. -/
def envWriteFail : SysEnv :=
  ⟨fun _ _ => Except.error "EACCES", fun _ => ⟨none, "", ""⟩⟩

theorem forestHeight_le_of_mem (l : List DependencyNode) (c : Nat)
    (h : ∀ t ∈ l, nodeHeight t ≤ c) : forestHeight l ≤ c := by
  induction l with
  | nil => simp [forestHeight]
  | cons t ts ih =>
      simp only [forestHeight, max_le_iff]
      exact ⟨h t (List.mem_cons_self t ts), ih fun x hx => h x (List.mem_cons_of_mem t hx)⟩

theorem nodeHeight_le_forestHeight (l : List DependencyNode) (t : DependencyNode)
    (h : t ∈ l) : nodeHeight t ≤ forestHeight l := by
  induction l with
  | nil => cases h
  | cons a as ih =>
      rcases List.mem_cons.mp h with rfl | h2
      · simp [forestHeight]
      · exact le_trans (ih h2) (by simp [forestHeight])

theorem getDependencies_height (reg : String → RegResult) (name : String)
    (depth maxDepth : Nat) (url : String) :
    forestHeight (getDependencies reg name depth maxDepth url).1 ≤ maxDepth + 1 - depth := by
  by_cases h : depth > maxDepth
  · simp [getDependencies, h, forestHeight]
  · rw [getDependencies, if_neg h]
    cases hr : reg (requestUrl url name) with
    | fail => simp [hr, forestHeight]
    | ok v =>
        simp only [hr, List.map_map]
        apply forestHeight_le_of_mem
        intro t ht
        rcases List.mem_map.mp ht with ⟨n, hn, rfl⟩
        simp only [Function.comp_apply, nodeHeight]
        have := getDependencies_height reg n (depth + 1) maxDepth url
        omega
termination_by maxDepth + 1 - depth
decreasing_by simp_wf; omega

theorem forestHeight_eq_zero (l : List DependencyNode) (h : forestHeight l = 0) : l = [] := by
  cases l with
  | nil => rfl
  | cons t ts => cases t with
    | mk n ds => simp [forestHeight, nodeHeight] at h

theorem forestHeight_append (a b : List DependencyNode) :
    forestHeight (a ++ b) = max (forestHeight a) (forestHeight b) := by
  induction a with
  | nil => simp [forestHeight]
  | cons t ts ih => simp [forestHeight, ih, max_assoc]

theorem forestHeight_childForest (l : List DependencyNode) (m : Nat)
    (h : forestHeight l ≤ m + 1) : forestHeight (childForest l) ≤ m := by
  induction l with
  | nil => simp [childForest, forestHeight]
  | cons t ts ih =>
      cases t with
      | mk n ds =>
          simp only [childForest, List.map_cons, List.flatten_cons] at *
          rw [forestHeight_append]
          simp only [forestHeight, nodeHeight, DependencyNode.dependencies, max_le_iff] at h ⊢
          exact ⟨by omega, ih h.2⟩

theorem nodesAtDepth_eq_nil (k : Nat) : ∀ l, forestHeight l < k → nodesAtDepth k l = [] := by
  induction k using Nat.strong_induction_on with
  | _ k ih =>
    intro l hl
    match k with
    | 0 => rfl
    | 1 =>
        have := forestHeight_eq_zero l (by omega)
        simp [this, nodesAtDepth]
    | (k + 2) =>
        simp only [nodesAtDepth]
        exact ih (k + 1) (by omega) _
          (by have := forestHeight_childForest l (forestHeight l - 1) (by omega); omega)

theorem nodeHeight_nodesAtDepth (k : Nat) :
    ∀ l t, t ∈ nodesAtDepth k l → nodeHeight t + k ≤ forestHeight l + 1 := by
  induction k using Nat.strong_induction_on with
  | _ k ih =>
    intro l t ht
    match k with
    | 0 => simp [nodesAtDepth] at ht
    | 1 =>
        simp only [nodesAtDepth] at ht
        have := nodeHeight_le_forestHeight l t ht
        omega
    | (k + 2) =>
        simp only [nodesAtDepth] at ht
        have h2 := ih (k + 1) (by omega) _ t ht
        rcases Nat.eq_zero_or_pos (forestHeight l) with h0 | h1
        · rw [forestHeight_eq_zero l h0] at ht
          rw [nodesAtDepth_eq_nil (k + 1) _ (by simp [childForest, forestHeight])] at ht
          cases ht
        · have := forestHeight_childForest l (forestHeight l - 1) (by omega)
          omega

theorem edgesText_append (a b : List (String × String)) :
    edgesText (a ++ b) = edgesText a ++ edgesText b := by
  induction a with
  | nil => simp [edgesText]
  | cons e es ih => simp [edgesText, ih, String.append_assoc]

mutual
theorem addDependenciesAcc_eq (dep : DependencyNode) (parent graph : String) :
    addDependenciesAcc graph dep parent = graph ++ edgesText (preorderEdgesN dep parent) := by
  cases dep with
  | mk n ds =>
      rw [addDependenciesAcc, preorderEdgesN, forEachDep_eq, edgesText]
      simp [String.append_assoc]
theorem forEachDep_eq (l : List DependencyNode) (parent graph : String) :
    forEachDep graph l parent = graph ++ edgesText (preorderEdgesF l parent) := by
  cases l with
  | nil => simp [forEachDep, preorderEdgesF, edgesText]
  | cons d ds =>
      rw [forEachDep, addDependenciesAcc_eq, forEachDep_eq, preorderEdgesF, edgesText_append]
      simp [String.append_assoc]
end

/-- C1: for every maxDepth `d ≥ 1` and every registry response function, the
tree returned by `getDependencies(rootPackage, 1, d, url)` has no
`DependencyNode` at a depth exceeding `d` (the root call is depth 1, so the
returned top-level nodes are at depth 1), and every node at depth `d` has an
empty `dependencies` sequence. -/
theorem getDependencies_depth_bounded (reg : String → RegResult) (url root : String)
    (d : Nat) (hd : 1 ≤ d) :
    (∀ k, d < k → nodesAtDepth k (getDependencies reg root 1 d url).1 = []) ∧
    (∀ t ∈ nodesAtDepth d (getDependencies reg root 1 d url).1, t.dependencies = []) := by
  have hh : forestHeight (getDependencies reg root 1 d url).1 ≤ d := by
    have := getDependencies_height reg root 1 d url
    omega
  constructor
  · intro k hk
    exact nodesAtDepth_eq_nil k _ (by omega)
  · intro t ht
    have h2 := nodeHeight_nodesAtDepth d _ t ht
    cases t with
    | mk n ds =>
        simp only [nodeHeight] at h2
        have h3 : forestHeight ds = 0 := by omega
        simp [DependencyNode.dependencies, forestHeight_eq_zero ds h3]

theorem getDependencies_depth_bounded_witness :
    nodesAtDepth 3 (getDependencies regC7 "example-package" 1 2 "https://api.example.com").1 = [] :=
  (getDependencies_depth_bounded regC7 "https://api.example.com" "example-package" 2
    (by decide)).1 3 (by decide)

/-- C2: `getDependencies` never raises to its caller (the embedding is a total
function precisely because the source catches every fetch error): a failed
fetch yields an empty sequence for that call, degrading only that node to a
leaf, while on a successful fetch every declared dependency name becomes a
node whose subtree is that name's own independent recursive resolution — so a
failure below one child never aborts its siblings or its ancestors. -/
theorem getDependencies_failure_isolation (reg : String → RegResult) (name : String)
    (depth maxDepth : Nat) (url : String) (h : depth ≤ maxDepth) :
    (reg (requestUrl url name) = RegResult.fail →
      (getDependencies reg name depth maxDepth url).1 = []) ∧
    (∀ v, reg (requestUrl url name) = RegResult.ok v →
      (getDependencies reg name depth maxDepth url).1 =
        (declaredNames (RegResult.ok v)).map
          (fun n => DependencyNode.mk n (getDependencies reg n (depth + 1) maxDepth url).1)) ∧
    (∀ v, reg (requestUrl url name) = RegResult.ok v →
      ((getDependencies reg name depth maxDepth url).1).map DependencyNode.name =
        declaredNames (RegResult.ok v)) := by
  refine ⟨?_, ?_, ?_⟩
  · intro hr
    rw [getDependencies, if_neg (by omega)]
    simp only [hr]
  · intro v hr
    rw [getDependencies, if_neg (by omega)]
    simp only [hr, declaredNames, List.map_map]
    exact List.map_congr_left fun a _ => rfl
  · intro v hr
    rw [getDependencies, if_neg (by omega)]
    simp only [hr]
    simp only [declaredNames, List.map_map]
    conv_rhs => rw [← List.map_id (entriesKeys (jsOr v (JsValue.vObj [])))]
    exact List.map_congr_left fun a _ => rfl

theorem getDependencies_failure_isolation_witness :
    (getDependencies regAllFail "example-package" 1 2 "https://api.example.com").1 = [] :=
  (getDependencies_failure_isolation regAllFail "example-package" 1 2
    "https://api.example.com" (by decide)).1 rfl

/-- C3: `generateDotGraph` returns exactly a header line naming the graph
after the root name, one edge line of the literal shape
`  "<parent>" -> "<child>";` per (parent, child) pair in pre-order
depth-first order (each root-level node's edge from the root name, then all
its descendants' edges in stored order, before the next sibling's edge), then
the closing line; names are spliced in verbatim, unescaped.  The right-hand
side is assembled from the spec-modelled `preorderEdgesF` and `edgesText`. -/
theorem generateDotGraph_preorder_serialization (deps : List DependencyNode) (root : String) :
    generateDotGraph deps root =
      ("digraph " ++ root ++ " \x7b\n") ++ edgesText (preorderEdgesF deps root) ++ "\x7d\n" := by
  unfold generateDotGraph
  rw [forEachDep_eq]

/-- C4: if the SVG conversion step fails — its process reports an error, or
anything appears on stderr — then no PNG command is ever invoked: the SVG
command is the only external command of the whole run. -/
theorem generateImageFromDot_svg_failure_halts (env : SysEnv) (ds out vis : String)
    (hw : env.writeResult (out ++ ".dot") ds = Except.ok ())
    (hf : (env.exec (svgCommandOf vis out)).error ≠ none ∨
          (env.exec (svgCommandOf vis out)).stderr ≠ "") :
    ∀ evs, generateImageFromDot env ds out vis = Except.ok evs →
      execCmds evs = [svgCommandOf vis out] := by
  intro evs h
  unfold generateImageFromDot generateImageFromDotBody at h
  rw [hw] at h
  cases h
  unfold svgCallback
  cases he : (env.exec (svgCommandOf vis out)).error with
  | some m => simp [execCmds]
  | none =>
      rcases hf with hf | hf
      · exact absurd he hf
      · simp [hf, execCmds]

theorem generateImageFromDot_svg_failure_halts_witness :
    execCmds [Event.fileWritten ("output" ++ ".dot") "g",
              Event.logged ("DOT-граф сохранен в: " ++ ("output" ++ ".dot")),
              Event.execInvoked (svgCommandOf "dot" "output"),
              Event.errorLogged ("Ошибка при выполнении команды для SVG: " ++ "boom")] =
      [svgCommandOf "dot" "output"] :=
  generateImageFromDot_svg_failure_halts envExecFail "g" "output" "dot" rfl
    (Or.inl (by simp [envExecFail])) _ rfl

/-- C5: the pipeline first writes the graph text verbatim to `{base}.dot`;
if the write throws, the error is reported and no external command is invoked
(the whole trace is one error report); otherwise the trace starts with the
verbatim write followed by the invocation of exactly
`{visualizer} -Tsvg {base}.dot -o {base}.svg`, and when that command
succeeds, exactly one further external command runs — `magick {base}.svg
{base}.png`, consuming the SVG and producing the PNG. -/
theorem generateImageFromDot_pipeline_steps (env : SysEnv) (ds out vis : String) :
    (∀ e, env.writeResult (out ++ ".dot") ds = Except.error e →
        generateImageFromDot env ds out vis =
          Except.ok [Event.errorLogged ("Ошибка при генерации изображения: " ++ e)]) ∧
    (∀ u, env.writeResult (out ++ ".dot") ds = Except.ok u →
        ∃ rest, generateImageFromDot env ds out vis =
          Except.ok (Event.fileWritten (out ++ ".dot") ds ::
                     Event.logged ("DOT-граф сохранен в: " ++ (out ++ ".dot")) ::
                     Event.execInvoked (svgCommandOf vis out) :: rest)) ∧
    (∀ u, env.writeResult (out ++ ".dot") ds = Except.ok u →
        (env.exec (svgCommandOf vis out)).error = none →
        (env.exec (svgCommandOf vis out)).stderr = "" →
        ∀ evs, generateImageFromDot env ds out vis = Except.ok evs →
          execCmds evs = [svgCommandOf vis out, pngCommandOf out]) := by
  refine ⟨?_, ?_, ?_⟩
  · intro e he
    unfold generateImageFromDot generateImageFromDotBody
    rw [he]
  · intro u hu
    unfold generateImageFromDot generateImageFromDotBody
    rw [hu]
    exact ⟨_, rfl⟩
  · intro u hu he hs evs h
    unfold generateImageFromDot generateImageFromDotBody at h
    rw [hu] at h
    cases h
    unfold svgCallback
    rw [he]
    simp only [hs, ne_eq, not_true_eq_false, if_false]
    unfold pngCallback
    cases hp : (env.exec (pngCommandOf out)).error with
    | some m => simp [execCmds]
    | none => cases hq : decide ((env.exec (pngCommandOf out)).stderr ≠ "") <;> simp_all [execCmds]

theorem generateImageFromDot_pipeline_steps_witness :
    generateImageFromDot envWriteFail "graph" "out" "dot" =
      Except.ok [Event.errorLogged ("Ошибка при генерации изображения: " ++ "EACCES")] :=
  (generateImageFromDot_pipeline_steps envWriteFail "graph" "out" "dot").1 "EACCES" rfl

/-- C6: a call with `depth > maxDepth` returns the empty sequence immediately
and issues no network request; otherwise the call's request trace is exactly
one request for `{url}/{name}/latest` followed by the requests of the
recursive resolutions of the declared dependency names, in order. -/
theorem getDependencies_one_request_per_call (reg : String → RegResult) (name : String)
    (depth maxDepth : Nat) (url : String) :
    (maxDepth < depth → getDependencies reg name depth maxDepth url = ([], [])) ∧
    (depth ≤ maxDepth →
      (getDependencies reg name depth maxDepth url).2 =
        requestUrl url name ::
          ((declaredNames (reg (requestUrl url name))).map
            (fun n => (getDependencies reg n (depth + 1) maxDepth url).2)).flatten) := by
  constructor
  · intro h
    rw [getDependencies, if_pos (by omega)]
  · intro h
    rw [getDependencies, if_neg (by omega)]
    cases hr : reg (requestUrl url name) with
    | fail => simp [hr, declaredNames]
    | ok v =>
        simp only [hr, declaredNames, List.map_map, List.cons.injEq, true_and]
        exact congrArg List.flatten (List.map_congr_left fun a _ => rfl)

theorem getDependencies_one_request_per_call_witness :
    getDependencies regAllFail "pkg" 3 2 "https://registry" = ([], []) :=
  (getDependencies_one_request_per_call regAllFail "pkg" 3 2 "https://registry").1 (by decide)

/-- C7: on the spec's example registry — the root declares `dep1` and `dep2`,
which resolve to empty and absent dependencies — the call at depth 1 with
`maxDepth = 2` returns exactly `[dep1 ↦ [], dep2 ↦ []]` in response field
order, and the request trace shows `dep1` fully resolved before `dep2`
begins. -/
theorem getDependencies_example_scenario :
    getDependencies regC7 "example-package" 1 2 "https://api.example.com" =
      ([DependencyNode.mk "dep1" [], DependencyNode.mk "dep2" []],
       ["https://api.example.com/example-package/latest",
        "https://api.example.com/dep1/latest",
        "https://api.example.com/dep2/latest"]) := by
  simp [getDependencies, regC7, requestUrl, entriesKeys, jsOr, truthy]

/-- C8: serialization is a pure deterministic function of the input forest
and root name — equal inputs give byte-identical output — and the source's
outer mutable `graph` variable is append-only: the accumulated state never
influences what a visit emits, so no hidden state enters the output.  (Input
immutability is intrinsic to the embedding: Lean values cannot be mutated.) -/
theorem generateDotGraph_deterministic :
    (∀ (d₁ d₂ : List DependencyNode) (n₁ n₂ : String), d₁ = d₂ → n₁ = n₂ →
        generateDotGraph d₁ n₁ = generateDotGraph d₂ n₂) ∧
    (∀ (graph : String) (l : List DependencyNode) (parent : String),
        forEachDep graph l parent = graph ++ forEachDep "" l parent) := by
  constructor
  · intro d₁ d₂ n₁ n₂ h1 h2
    rw [h1, h2]
  · intro graph l parent
    rw [forEachDep_eq, forEachDep_eq]
    simp

theorem generateDotGraph_deterministic_witness :
    generateDotGraph [] "p" = generateDotGraph [] "p" ∧
    forEachDep "seed" [DependencyNode.mk "dep1" []] "root" =
      "seed" ++ forEachDep "" [DependencyNode.mk "dep1" []] "root" :=
  ⟨generateDotGraph_deterministic.1 [] [] "p" "p" rfl rfl,
   generateDotGraph_deterministic.2 "seed" [DependencyNode.mk "dep1" []] "root"⟩

/-- C9: the promise returned by `generateImageFromDot` always fulfills: for
every system behaviour the embedding returns `Except.ok` — a write failure is
caught by the surrounding `try`/`catch` and reported inside the function, and
external-tool failures happen inside the `exec` callbacks, which only append
report events and cannot reject the returned promise. -/
theorem generateImageFromDot_never_rejects (env : SysEnv)
    (dotString outputFilePath visualizerPath : String) :
    ∃ evs, generateImageFromDot env dotString outputFilePath visualizerPath =
      Except.ok evs := by
  unfold generateImageFromDot
  cases h : generateImageFromDotBody env dotString outputFilePath visualizerPath with
  | ok evs => exact ⟨evs, rfl⟩
  | error e => exact ⟨_, rfl⟩

/-- C10: when the response's `dependencies` field holds any falsy value
(absent, null, false, 0, empty string — `truthy v = false` covers them all),
the `|| {}` fallback makes the package a leaf: the call returns no nodes,
requests nothing beyond its own URL, and raises no error. -/
theorem getDependencies_falsy_dependencies_leaf (reg : String → RegResult) (name : String)
    (depth maxDepth : Nat) (url : String) (v : JsValue) (h : depth ≤ maxDepth)
    (hr : reg (requestUrl url name) = RegResult.ok v) (hv : truthy v = false) :
    getDependencies reg name depth maxDepth url = ([], [requestUrl url name]) := by
  rw [getDependencies, if_neg (by omega)]
  simp only [hr]
  simp [jsOr, hv, entriesKeys]

theorem getDependencies_falsy_dependencies_leaf_witness :
    getDependencies regNullDeps "pkg" 1 1 "https://registry" =
      ([], [requestUrl "https://registry" "pkg"]) :=
  getDependencies_falsy_dependencies_leaf regNullDeps "pkg" 1 1 "https://registry"
    JsValue.vNull (by decide) rfl rfl
